import Mathlib

/-!
Verification of the `cache` package of `VincentWijaya/go-pkg`.

The package is a thin client wrapper around a remote Redis-style key-value
store.  We embed the client shallowly:

* the remote side (the pooled connection's `DoWithTimeout`) is an oracle
  `Exec`, a function of the configured timeout, the history of commands
  issued so far, and the current command;
* every client operation is a pure function from the client value, the
  oracle, and an event trace to its Go results, the client value after the
  call, and the extended event trace;
* the event trace records connection acquisition, command execution and
  connection release, so that statements about which commands an operation
  issues, and about the pool being touched or not, are equations on traces.

Conversion helpers of the `redigo` library (`redis.String`, `redis.Int`, …)
and `encoding/json` are external collaborators; they are modelled as
executable Lean functions following their documented behaviour (error-first
propagation, type-directed conversion, JSON encoding/decoding).
-/

namespace GoPkgCache

/-- A raw value travelling over the Redis protocol, as `redigo` hands it to
the caller: an integer reply, a bulk (byte-string) reply, a status (simple
string) reply, a nil reply, or an array of values. -/
inductive RVal where
  | int64 (n : Int)
  | bulk (s : String)
  | status (s : String)
  | nil
  | arr (vs : List RVal)

/-- Errors that the cache package and its collaborators produce. -/
inductive Err where
  /-- `redis.ErrNil`: the documented nil-value sentinel. -/
  | errNil
  /-- A command exceeded its deadline. -/
  | timeout
  /-- A transport/dial failure with a message. -/
  | ioError (msg : String)
  /-- A `redigo` conversion received a reply of an unexpected type. -/
  | unexpectedType (conv : String)
  /-- A `redigo` conversion failed to parse a bulk payload. -/
  | parseFailure (conv : String) (payload : String)
  /-- `json.Marshal` met a value of an unsupported kind. -/
  | jsonUnsupported (kind : String)
  /-- `json.Unmarshal` met bytes that are not valid JSON. -/
  | jsonSyntax
  /-- `redis.ScanStruct` received an odd number of values. -/
  | scanStructOdd
  /-- `fmt.Errorf(format, endpoint, cause)` as used with
  `ErrorFailedConnect`, wrapping a non-nil cause. -/
  | wrapped (format : String) (endpoint : String) (cause : Err)
  /-- `fmt.Errorf(format, endpoint, err)` where the wrapped `err` was nil
  (as in `Ping` when the reply is not `"PONG"` but the error is nil). -/
  | wrappedNil (format : String) (endpoint : String)
deriving DecidableEq

/-- An argument of a command, a Go `interface{}`: the package passes
strings (keys, set members), integers (expiries) and byte slices
(JSON-encoded values). -/
inductive Arg where
  | str (s : String)
  | int (n : Int)
  | bytes (b : String)
deriving DecidableEq

/-- A command as issued on a connection: name plus argument list. -/
structure Cmd where
  name : String
  args : List Arg
deriving DecidableEq

/-- An event observable at the pool boundary. -/
inductive Event where
  /-- `r.pool.Get()` -/
  | acquire
  /-- `conn.DoWithTimeout(timeout, name, args...)` -/
  | exec (c : Cmd)
  /-- `conn.Close()` -/
  | release
deriving DecidableEq

/-- The commands of a trace, in order. -/
def cmds (t : List Event) : List Cmd :=
  t.filterMap fun e => match e with
    | .exec c => some c
    | _ => none

/-- The remote side: given the timeout passed to `DoWithTimeout`, the
history of commands issued so far and the current command, it yields the
raw reply value and the error of this call. -/
def Exec : Type := Int → List Cmd → Cmd → RVal × Option Err

/-- `redis.Pool` as configured by `ConnectRedis`. -/
structure Pool where
  maxIdle : Int
  maxActive : Int
  idleTimeout : Int
  wait : Bool
deriving DecidableEq

/-- `cache.RedisConfig`. -/
structure RedisConfig where
  Connection : String
  Password : String
  Timeout : Int
  MaxIdle : Int
  MaxActive : Int

/-- `cache.Redis`: the client handle. -/
structure Redis where
  connection : String
  timeout : Int
  pool : Pool
deriving DecidableEq

/-- `cache.Reply`: result and error of one command. -/
structure Reply where
  result : RVal
  error : Option Err

/-- One nanosecond short of nothing: `time.Second` in nanoseconds. -/
def second : Int := 1000000000

/-- `cache.ErrorFailedConnect`. -/
def ErrorFailedConnect : String := "Failed to connect to redis %s. Error: %s"

/-- `cache.ConnectRedis`.  The pool is configured from the config; the
blocking health check `conn.DoWithTimeout(timeout, "PING")` is the `ping`
oracle argument (a dial failure surfaces as its error component).  The Go
code only tests the error of that call. -/
def ConnectRedis (config : RedisConfig) (ping : RVal × Option Err) :
    Except Err Redis :=
  let timeout := config.Timeout * second
  let _pool : Pool := ⟨config.MaxIdle, config.MaxActive, timeout, true⟩
  match ping.2 with
  | some e => .error (.wrapped ErrorFailedConnect config.Connection e)
  | none => .ok ⟨config.Connection, timeout, _pool⟩

/-- The outcome of one client operation returning an `IReply`: the reply,
the receiver after the call, and the extended event trace. -/
structure OpResult where
  reply : Reply
  self : Redis
  trace : List Event

/-- `(*Redis).Do`: acquire a connection from the pool, execute the command
under the client's configured timeout with `defer conn.Close()`, and wrap
the raw result and error in a `Reply`. -/
def Redis.Do (r : Redis) (ex : Exec) (t : List Event) (command : String)
    (args : List Arg) : OpResult :=
  let c : Cmd := ⟨command, args⟩
  let res := ex r.timeout (cmds t) c
  ⟨⟨res.1, res.2⟩, r, t ++ [.acquire, .exec c, .release]⟩

/-- `(*Redis).Expire`. -/
def Redis.Expire (r : Redis) (ex : Exec) (t : List Event) (key : String)
    (expire : Int) : OpResult :=
  r.Do ex t "EXPIRE" [.str key, .int expire]

/-- `(*Redis).TTL`. -/
def Redis.TTL (r : Redis) (ex : Exec) (t : List Event) (key : String) :
    OpResult :=
  r.Do ex t "TTL" [.str key]

/-- `(*Redis).Incr`. -/
def Redis.Incr (r : Redis) (ex : Exec) (t : List Event) (key : String) :
    OpResult :=
  r.Do ex t "INCR" [.str key]

/-- `(*Redis).IncrBy`. -/
def Redis.IncrBy (r : Redis) (ex : Exec) (t : List Event) (key : String)
    (incr : Int) : OpResult :=
  r.Do ex t "INCRBY" [.str key, .int incr]

/-- `(*Redis).Decr`. -/
def Redis.Decr (r : Redis) (ex : Exec) (t : List Event) (key : String) :
    OpResult :=
  r.Do ex t "DECR" [.str key]

/-- `(*Redis).DecrBy`. -/
def Redis.DecrBy (r : Redis) (ex : Exec) (t : List Event) (key : String)
    (decr : Int) : OpResult :=
  r.Do ex t "DECRBY" [.str key, .int decr]

/-- `(*Redis).Get`. -/
def Redis.Get (r : Redis) (ex : Exec) (t : List Event) (key : String) :
    OpResult :=
  r.Do ex t "GET" [.str key]

/-- `(*Redis).Set`: `SET`, then `EXPIRE key 15*60` whose reply is dropped;
the returned reply is the `SET` reply. -/
def Redis.Set (r : Redis) (ex : Exec) (t : List Event) (key : String)
    (value : Arg) : OpResult :=
  let result := r.Do ex t "SET" [.str key, value]
  let e := result.self.Expire ex result.trace key (15 * 60)
  ⟨result.reply, e.self, e.trace⟩

/-- `(*Redis).SetWithExpire`. -/
def Redis.SetWithExpire (r : Redis) (ex : Exec) (t : List Event)
    (key : String) (expire : Int) (value : Arg) : OpResult :=
  let result := r.Do ex t "SET" [.str key, value]
  let e := result.self.Expire ex result.trace key expire
  ⟨result.reply, e.self, e.trace⟩

/-- `(*Redis).SetNoExpire`. -/
def Redis.SetNoExpire (r : Redis) (ex : Exec) (t : List Event)
    (key : String) (value : Arg) : OpResult :=
  r.Do ex t "SET" [.str key, value]

/-- `(*Redis).Del`. -/
def Redis.Del (r : Redis) (ex : Exec) (t : List Event) (key : String) :
    OpResult :=
  r.Do ex t "DEL" [.str key]

/-- `cache.stringToInterface`: the key followed by the member values, in
order, as `interface{}` arguments. -/
def stringToInterface (key : String) (values : List String) : List Arg :=
  .str key :: values.map .str

/-- `(*Redis).SAdd`: `SADD`, then `EXPIRE key 15*60` whose reply is
dropped; the returned reply is the `SADD` reply. -/
def Redis.SAdd (r : Redis) (ex : Exec) (t : List Event) (key : String)
    (values : List String) : OpResult :=
  let args := stringToInterface key values
  let result := r.Do ex t "SADD" args
  let e := result.self.Expire ex result.trace key (15 * 60)
  ⟨result.reply, e.self, e.trace⟩

/-- `(*Redis).SAddWithExpire`: a bare `SADD`; the `expire` parameter is
never used. -/
def Redis.SAddWithExpire (r : Redis) (ex : Exec) (t : List Event)
    (key : String) (_expire : Int) (values : List String) : OpResult :=
  let args := stringToInterface key values
  r.Do ex t "SADD" args

/-- `(*Redis).SAddNoExpire`: a bare `SADD`. -/
def Redis.SAddNoExpire (r : Redis) (ex : Exec) (t : List Event)
    (key : String) (values : List String) : OpResult :=
  let args := stringToInterface key values
  r.Do ex t "SADD" args

/-- `(*Redis).SRem`. -/
def Redis.SRem (r : Redis) (ex : Exec) (t : List Event) (key : String)
    (values : List String) : OpResult :=
  let args := stringToInterface key values
  r.Do ex t "SREM" args

/-- `(*Redis).SIsMember`. -/
def Redis.SIsMember (r : Redis) (ex : Exec) (t : List Event)
    (key value : String) : OpResult :=
  r.Do ex t "SISMEMBER" [.str key, .str value]

/-- `(*Redis).SMembers`. -/
def Redis.SMembers (r : Redis) (ex : Exec) (t : List Event) (key : String) :
    OpResult :=
  r.Do ex t "SMEMBERS" [.str key]

/-- `(*Redis).SCard`. -/
def Redis.SCard (r : Redis) (ex : Exec) (t : List Event) (key : String) :
    OpResult :=
  r.Do ex t "SCARD" [.str key]

/-- `redis.Args{}.Add(name).AddFlat(obj)`: the name followed by the
object flattened into alternating field-name/value arguments, as
`AddFlat` produces for a struct or map (modelled from the `redigo`
collaborator; the object is given by its field-name/value pairs). -/
def redisArgsAddFlat (name : String) (obj : List (String × Arg)) :
    List Arg :=
  .str name :: (obj.map fun kv => [Arg.str kv.1, kv.2]).flatten

/-- `(*Redis).HSet`: `HMSET` on the flattened object, then
`EXPIRE name 15*60` whose reply is dropped; the returned reply is the
`HMSET` reply. -/
def Redis.HSet (r : Redis) (ex : Exec) (t : List Event) (name : String)
    (obj : List (String × Arg)) : OpResult :=
  let result := r.Do ex t "HMSET" (redisArgsAddFlat name obj)
  let e := result.self.Expire ex result.trace name (15 * 60)
  ⟨result.reply, e.self, e.trace⟩

/-- `(*Redis).HSetWithExpire`. -/
def Redis.HSetWithExpire (r : Redis) (ex : Exec) (t : List Event)
    (name : String) (expire : Int) (obj : List (String × Arg)) : OpResult :=
  let result := r.Do ex t "HMSET" (redisArgsAddFlat name obj)
  let e := result.self.Expire ex result.trace name expire
  ⟨result.reply, e.self, e.trace⟩

/-- `(*Redis).HSetNoExpire`. -/
def Redis.HSetNoExpire (r : Redis) (ex : Exec) (t : List Event)
    (name : String) (obj : List (String × Arg)) : OpResult :=
  r.Do ex t "HMSET" (redisArgsAddFlat name obj)

/-- `(*Redis).HGet` (`redis.Args{}.Add(name).Add(key)`). -/
def Redis.HGet (r : Redis) (ex : Exec) (t : List Event)
    (name key : String) : OpResult :=
  r.Do ex t "HGET" [.str name, .str key]

/-- `(*Redis).HGetAll`. -/
def Redis.HGetAll (r : Redis) (ex : Exec) (t : List Event) (name : String) :
    OpResult :=
  r.Do ex t "HGETALL" [.str name]

/-- `(*Redis).HDel` (`redis.Args{}.Add(name).Add(key)`). -/
def Redis.HDel (r : Redis) (ex : Exec) (t : List Event)
    (name key : String) : OpResult :=
  r.Do ex t "HDEL" [.str name, .str key]

/-- `(*Redis).ZAdd`: `ZADD key score value`. -/
def Redis.ZAdd (r : Redis) (ex : Exec) (t : List Event) (key : String)
    (value : Arg) (score : Int) : OpResult :=
  r.Do ex t "ZADD" [.str key, .int score, value]

/-- `(*Redis).ZRem`. -/
def Redis.ZRem (r : Redis) (ex : Exec) (t : List Event) (key : String)
    (value : Arg) : OpResult :=
  r.Do ex t "ZREM" [.str key, value]

/-- `(*Redis).ZRange`: the variadic arguments are forwarded as-is. -/
def Redis.ZRange (r : Redis) (ex : Exec) (t : List Event)
    (values : List Arg) : OpResult :=
  r.Do ex t "ZRANGE" values

/-- `(*Redis).ZInterStore`: the variadic arguments are forwarded as-is. -/
def Redis.ZInterStore (r : Redis) (ex : Exec) (t : List Event)
    (values : List Arg) : OpResult :=
  r.Do ex t "ZINTERSTORE" values

/-! ### Decimal numerals

Shared by the model of `strconv.ParseInt`/`ParseFloat` (used inside the
`redigo` conversions) and by the JSON codec. -/

/-- The decimal digit character for `d % 10`. -/
def digitChar (d : Nat) : Char :=
  match d % 10 with
  | 0 => '0'
  | 1 => '1'
  | 2 => '2'
  | 3 => '3'
  | 4 => '4'
  | 5 => '5'
  | 6 => '6'
  | 7 => '7'
  | 8 => '8'
  | _ => '9'

/-- The numeric value of a digit character. -/
def digitVal (c : Char) : Nat := c.toNat - 48

/-- The decimal digits of `n`, least significant first (empty for 0). -/
def natDigitsRev (n : Nat) : List Char :=
  if h : n = 0 then []
  else digitChar (n % 10) :: natDigitsRev (n / 10)
decreasing_by exact Nat.div_lt_self (Nat.pos_of_ne_zero h) (by decide)

/-- The canonical decimal numeral of `n`. -/
def encNat (n : Nat) : List Char :=
  if n = 0 then ['0'] else (natDigitsRev n).reverse

/-- The canonical decimal numeral of `i`, with a leading minus sign when
negative. -/
def encInt (i : Int) : List Char :=
  if i < 0 then '-' :: encNat i.natAbs else encNat i.toNat

/-- Consume leading decimal digits, folding them onto `acc`. -/
def parseDigits : List Char → Nat → Nat × List Char
  | c :: cs, acc =>
      if c.isDigit then parseDigits cs (acc * 10 + digitVal c)
      else (acc, c :: cs)
  | [], acc => (acc, [])

/-- Parse a non-empty run of decimal digits. -/
def parseNatC : List Char → Option (Nat × List Char)
  | c :: cs => if c.isDigit then some (parseDigits cs (digitVal c)) else none
  | [] => none

/-- Parse an optionally-signed decimal integer. -/
def parseIntC : List Char → Option (Int × List Char)
  | [] => none
  | c :: cs =>
      if c = '-' then
        match parseNatC cs with
        | some (n, r) => some (-(n : Int), r)
        | none => none
      else
        match parseNatC (c :: cs) with
        | some (n, r) => some ((n : Int), r)
        | none => none

/-- Model of `strconv.ParseInt(s, 10, 64)` as used by `redigo`: the whole
string must be a signed decimal numeral. -/
def strconvParseInt (s : String) : Option Int :=
  match parseIntC s.data with
  | some (i, []) => some i
  | _ => none

/-- Model of `strconv.ParseFloat` on the decimal payloads this package
stores, idealised over the rationals: optional sign, an integer part and
an optional fractional part. -/
def strconvParseFloat (s : String) : Option Rat :=
  let core : List Char → Option Rat := fun l =>
    match parseNatC l with
    | some (n, []) => some (n : Rat)
    | some (n, c :: ds) =>
        if c = '.' then
          match parseNatC ds with
          | some (m, []) => some ((n : Rat) + (m : Rat) / (10 : Rat) ^ ds.length)
          | _ => none
        else none
    | none => none
  match s.data with
  | c :: l => if c = '-' then (core l).map Neg.neg else core (c :: l)
  | [] => none

/-- Model of `strconv.ParseBool`. -/
def strconvParseBool (s : String) : Option Bool :=
  if s = "1" ∨ s = "t" ∨ s = "T" ∨ s = "true" ∨ s = "TRUE" ∨ s = "True" then
    some true
  else if s = "0" ∨ s = "f" ∨ s = "F" ∨ s = "false" ∨ s = "FALSE" ∨ s = "False" then
    some false
  else none

/-! ### The `redigo` reply conversions

Modelled from the `redigo` helpers the package calls: each conversion
first propagates a non-nil error argument unchanged, then converts the
reply value by its dynamic type, with `redis.ErrNil` for nil replies and a
type error otherwise. -/

/-- `redis.String`. -/
def redisString (v : RVal) (e : Option Err) : Except Err String :=
  match e with
  | some err => .error err
  | none =>
    match v with
    | .bulk s => .ok s
    | .status s => .ok s
    | .nil => .error .errNil
    | _ => .error (.unexpectedType "String")

/-- `redis.Bytes` (byte slices rendered as `String`). -/
def redisBytes (v : RVal) (e : Option Err) : Except Err String :=
  match e with
  | some err => .error err
  | none =>
    match v with
    | .bulk s => .ok s
    | .status s => .ok s
    | .nil => .error .errNil
    | _ => .error (.unexpectedType "Bytes")

/-- `redis.Int64`. -/
def redisInt64 (v : RVal) (e : Option Err) : Except Err Int :=
  match e with
  | some err => .error err
  | none =>
    match v with
    | .int64 n => .ok n
    | .bulk s =>
        match strconvParseInt s with
        | some i => .ok i
        | none => .error (.parseFailure "Int64" s)
    | .nil => .error .errNil
    | _ => .error (.unexpectedType "Int64")

/-- `redis.Int` (Go `int` is 64-bit on the supported platforms). -/
def redisInt (v : RVal) (e : Option Err) : Except Err Int :=
  match e with
  | some err => .error err
  | none =>
    match v with
    | .int64 n => .ok n
    | .bulk s =>
        match strconvParseInt s with
        | some i => .ok i
        | none => .error (.parseFailure "Int" s)
    | .nil => .error .errNil
    | _ => .error (.unexpectedType "Int")

/-- `redis.Float64`, idealised over the rationals. -/
def redisFloat64 (v : RVal) (e : Option Err) : Except Err Rat :=
  match e with
  | some err => .error err
  | none =>
    match v with
    | .bulk s =>
        match strconvParseFloat s with
        | some q => .ok q
        | none => .error (.parseFailure "Float64" s)
    | .nil => .error .errNil
    | _ => .error (.unexpectedType "Float64")

/-- `redis.Bool`. -/
def redisBool (v : RVal) (e : Option Err) : Except Err Bool :=
  match e with
  | some err => .error err
  | none =>
    match v with
    | .int64 n => .ok (n ≠ 0)
    | .bulk s =>
        match strconvParseBool s with
        | some b => .ok b
        | none => .error (.parseFailure "Bool" s)
    | .nil => .error .errNil
    | _ => .error (.unexpectedType "Bool")

/-- Convert each element of a multi-bulk reply to a string. -/
def stringsOf : List RVal → Except Err (List String)
  | [] => .ok []
  | v :: vs =>
    match v with
    | .bulk s =>
        match stringsOf vs with
        | .ok ss => .ok (s :: ss)
        | .error e => .error e
    | .status s =>
        match stringsOf vs with
        | .ok ss => .ok (s :: ss)
        | .error e => .error e
    | _ => .error (.unexpectedType "Strings")

/-- `redis.Strings`. -/
def redisStrings (v : RVal) (e : Option Err) : Except Err (List String) :=
  match e with
  | some err => .error err
  | none =>
    match v with
    | .arr vs => stringsOf vs
    | .nil => .error .errNil
    | _ => .error (.unexpectedType "Strings")

/-- `redis.Values`. -/
def redisValues (v : RVal) (e : Option Err) : Except Err (List RVal) :=
  match e with
  | some err => .error err
  | none =>
    match v with
    | .arr vs => .ok vs
    | .nil => .error .errNil
    | _ => .error (.unexpectedType "Values")

/-- `redis.ScanStruct`, modelled as producing the field-name/value pairs it
would assign: the values come in name/value alternation, names and values
as bulk strings; an odd count is an error. -/
def scanStruct : List RVal → Except Err (List (String × String))
  | [] => .ok []
  | [_] => .error .scanStructOdd
  | name :: value :: rest =>
    match name, value with
    | .bulk n, .bulk v =>
        match scanStruct rest with
        | .ok fields => .ok ((n, v) :: fields)
        | .error e => .error e
    | _, _ => .error (.unexpectedType "ScanStruct")

/-! ### The `encoding/json` collaborator

Structured values are modelled by a JSON value type; `json.Marshal`
produces the canonical serialization and `json.Unmarshal` parses it back
(as into an `interface{}` target).  Numbers are modelled as integers and
string escaping covers the quote and the backslash; both are executable
and the decoder is a genuine recursive-descent parser. -/

/-- A structured (JSON) value. -/
inductive Json where
  | null
  | bool (b : Bool)
  | num (i : Int)
  | str (s : String)
  | arr (xs : List Json)
  | obj (kvs : List (String × Json))

mutual

/-- The number of JSON nodes, counting one extra per collection element;
used as parser fuel. -/
def Json.size : Json → Nat
  | .null => 1
  | .bool _ => 1
  | .num _ => 1
  | .str _ => 1
  | .arr xs => 1 + sizeJL xs
  | .obj kvs => 1 + sizeJM kvs

/-- Fuel weight of array elements. -/
def sizeJL : List Json → Nat
  | [] => 0
  | x :: xs => 1 + x.size + sizeJL xs

/-- Fuel weight of object members. -/
def sizeJM : List (String × Json) → Nat
  | [] => 0
  | (_, v) :: kvs => 1 + v.size + sizeJM kvs

end

/-- The head of the character list, if any, is not a decimal digit; a
numeral followed by such a remainder parses back exactly. -/
def noDigitHead : List Char → Prop
  | [] => True
  | c :: _ => c.isDigit = false

/-- The characters that can start the serialization of a JSON value. -/
def jsonStartChar (c : Char) : Prop :=
  c = 'n' ∨ c = 't' ∨ c = 'f' ∨ c = '"' ∨ c = '[' ∨ c = '\x7b' ∨
    c = '-' ∨ c.isDigit = true

/-- Serialize one character of a JSON string, escaping the quote and the
backslash. -/
def escChar (c : Char) : List Char :=
  if c = '"' ∨ c = '\\' then ['\\', c] else [c]

/-- Serialize the body of a JSON string. -/
def escBody : List Char → List Char
  | [] => []
  | c :: cs => escChar c ++ escBody cs

/-- Serialize a JSON string, quotes included. -/
def encStr (s : String) : List Char :=
  '"' :: escBody s.data ++ ['"']

mutual

/-- Serialize a JSON value. -/
def encJson : Json → List Char
  | .null => "null".data
  | .bool true => "true".data
  | .bool false => "false".data
  | .num i => encInt i
  | .str s => encStr s
  | .arr xs => '[' :: encArrBody xs ++ [']']
  | .obj kvs => '\x7b' :: encObjBody kvs ++ ['\x7d']

/-- Serialize array elements, comma-separated. -/
def encArrBody : List Json → List Char
  | [] => []
  | [x] => encJson x
  | x :: xs => encJson x ++ ',' :: encArrBody xs

/-- Serialize object members, comma-separated. -/
def encObjBody : List (String × Json) → List Char
  | [] => []
  | [(k, v)] => encStr k ++ ':' :: encJson v
  | (k, v) :: kvs => encStr k ++ ':' :: encJson v ++ ',' :: encObjBody kvs

end

/-- Does the list start with the character `c`? -/
def headIs (c : Char) : List Char → Bool
  | x :: _ => x = c
  | [] => false

/-- Parse the body of a JSON string after the opening quote, up to and
including the closing quote; a backslash escapes the next character. -/
def parseStrBody : List Char → Option (List Char × List Char)
  | [] => none
  | c :: cs =>
      if c = '\\' then
        match cs with
        | [] => none
        | d :: cs2 =>
          match parseStrBody cs2 with
          | some (s, r) => some (d :: s, r)
          | none => none
      else if c = '"' then some ([], cs)
      else
        match parseStrBody cs with
        | some (s, r) => some (c :: s, r)
        | none => none

mutual

/-- Parse one JSON value (fuel-bounded recursive descent). -/
def parseJson : Nat → List Char → Option (Json × List Char)
  | 0, _ => none
  | _ + 1, [] => none
  | fuel + 1, c :: rest =>
      if c = 'n' then
        match rest with
        | 'u' :: 'l' :: 'l' :: r => some (.null, r)
        | _ => none
      else if c = 't' then
        match rest with
        | 'r' :: 'u' :: 'e' :: r => some (.bool true, r)
        | _ => none
      else if c = 'f' then
        match rest with
        | 'a' :: 'l' :: 's' :: 'e' :: r => some (.bool false, r)
        | _ => none
      else if c = '"' then
        match parseStrBody rest with
        | some (s, r) => some (.str (String.mk s), r)
        | none => none
      else if c = '[' then
        if headIs ']' rest then some (.arr [], rest.tail)
        else
          match parseElems fuel rest with
          | some (xs, r) => some (.arr xs, r)
          | none => none
      else if c = '\x7b' then
        if headIs '\x7d' rest then some (.obj [], rest.tail)
        else
          match parseMembers fuel rest with
          | some (kvs, r) => some (.obj kvs, r)
          | none => none
      else
        match parseIntC (c :: rest) with
        | some (i, r) => some (.num i, r)
        | none => none

/-- Parse one or more array elements followed by the closing bracket. -/
def parseElems : Nat → List Char → Option (List Json × List Char)
  | 0, _ => none
  | fuel + 1, l =>
      match parseJson fuel l with
      | none => none
      | some (x, r) =>
        if headIs ',' r then
          match parseElems fuel r.tail with
          | some (xs, r2) => some (x :: xs, r2)
          | none => none
        else if headIs ']' r then some ([x], r.tail)
        else none

/-- Parse one or more object members followed by the closing brace. -/
def parseMembers : Nat → List Char →
    Option (List (String × Json) × List Char)
  | 0, _ => none
  | fuel + 1, l =>
      if headIs '"' l then
        match parseStrBody l.tail with
        | none => none
        | some (k, r) =>
          if headIs ':' r then
            match parseJson fuel r.tail with
            | none => none
            | some (v, r2) =>
              if headIs ',' r2 then
                match parseMembers fuel r2.tail with
                | some (kvs, r3) => some ((String.mk k, v) :: kvs, r3)
                | none => none
              else if headIs '\x7d' r2 then
                some ([(String.mk k, v)], r2.tail)
              else none
          else none
      else none

end

/-- `json.Marshal` on a JSON value: its canonical serialization. -/
def jsonEncode (j : Json) : String :=
  String.mk (encJson j)

/-- `json.Unmarshal` into an `interface{}` target: parse the whole input
as one JSON value. -/
def jsonUnmarshal (s : String) : Option Json :=
  match parseJson (s.data.length + 1) s.data with
  | some (j, []) => some j
  | _ => none

/-- A Go value handed to the structured store operations: either a value
that `encoding/json` can serialize, or a value of an unsupported kind
(channel, function, …) on which `json.Marshal` fails. -/
inductive GoValue where
  | json (j : Json)
  | chan

/-- `json.Marshal`. -/
def jsonMarshal : GoValue → Except Err String
  | .json j => .ok (jsonEncode j)
  | .chan => .error (.jsonUnsupported "chan")

/-! ### The `Reply` decode accessors

Each Go accessor has a pointer receiver; it is modelled as returning its
result together with the receiver after the call, so that absence of
mutation is part of the statement. -/

/-- `(*Reply).Error`. -/
def Reply.Error (rp : Reply) : Option Err × Reply :=
  (rp.error, rp)

/-- `(*Reply).String`. -/
def Reply.String (rp : Reply) : Except Err String × Reply :=
  (redisString rp.result rp.error, rp)

/-- `(*Reply).Float64`. -/
def Reply.Float64 (rp : Reply) : Except Err Rat × Reply :=
  (redisFloat64 rp.result rp.error, rp)

/-- `(*Reply).Int64`. -/
def Reply.Int64 (rp : Reply) : Except Err Int × Reply :=
  (redisInt64 rp.result rp.error, rp)

/-- `(*Reply).Int`. -/
def Reply.Int (rp : Reply) : Except Err Int × Reply :=
  (redisInt rp.result rp.error, rp)

/-- `(*Reply).Bool`. -/
def Reply.Bool (rp : Reply) : Except Err Bool × Reply :=
  (redisBool rp.result rp.error, rp)

/-- `(*Reply).Strings`. -/
def Reply.Strings (rp : Reply) :=
  (redisStrings rp.result rp.error, rp)

/-- `(*Reply).Bytes`. -/
def Reply.Bytes (rp : Reply) :=
  (redisBytes rp.result rp.error, rp)

/-- `(*Reply).Unmarshal`: `redis.Bytes` on the stored result and error,
then `json.Unmarshal`. -/
def Reply.Unmarshal (rp : Reply) : Except Err Json × Reply :=
  (match redisBytes rp.result rp.error with
   | .error e => .error e
   | .ok b =>
     match jsonUnmarshal b with
     | some j => .ok j
     | none => .error .jsonSyntax,
   rp)

/-- `(*Reply).Struct`: `redis.Values` on the stored result and error, then
`redis.ScanStruct`. -/
def Reply.Struct (rp : Reply) :=
  (match redisValues rp.result rp.error with
   | .error e => Except.error e
   | .ok vs => scanStruct vs,
   rp)

/-! ### The remaining client operations -/

/-- `(*Redis).Ping`: decode the `PING` reply as a string; any decode error
or a reply other than `"PONG"` yields a wrapped connect error. -/
def Redis.Ping (r : Redis) (ex : Exec) (t : List Event) :
    Option Err × Redis × List Event :=
  let out := r.Do ex t "PING" []
  match (Reply.String out.reply).1 with
  | .error e => (some (.wrapped ErrorFailedConnect r.connection e),
                 out.self, out.trace)
  | .ok s =>
      if s = "PONG" then (none, out.self, out.trace)
      else (some (.wrappedNil ErrorFailedConnect r.connection),
            out.self, out.trace)

/-- `(*Redis).Exists`: decode the `EXISTS` reply as an int; on a decode
error return `false` with a wrapped error, otherwise compare with 1. -/
def Redis.Exists (r : Redis) (ex : Exec) (t : List Event) (key : String) :
    (Bool × Option Err) × Redis × List Event :=
  let out := r.Do ex t "EXISTS" [.str key]
  match (Reply.Int out.reply).1 with
  | .error e => ((false, some (.wrapped ErrorFailedConnect r.connection e)),
                 out.self, out.trace)
  | .ok n => ((n == 1, none), out.self, out.trace)

/-- `(*Redis).SetStruct`: `json.Marshal` the value; on failure return a
reply holding the error without touching the pool, otherwise `Set` the
encoded bytes. -/
def Redis.SetStruct (r : Redis) (ex : Exec) (t : List Event) (key : String)
    (value : GoValue) : OpResult :=
  match jsonMarshal value with
  | .error e => ⟨⟨.nil, some e⟩, r, t⟩
  | .ok b => r.Set ex t key (.bytes b)

/-- `(*Redis).SetStructWithExpire`. -/
def Redis.SetStructWithExpire (r : Redis) (ex : Exec) (t : List Event)
    (key : String) (expire : Int) (value : GoValue) : OpResult :=
  match jsonMarshal value with
  | .error e => ⟨⟨.nil, some e⟩, r, t⟩
  | .ok b => r.SetWithExpire ex t key expire (.bytes b)

/-- `(*Redis).SetStructNoExpire`. -/
def Redis.SetStructNoExpire (r : Redis) (ex : Exec) (t : List Event)
    (key : String) (value : GoValue) : OpResult :=
  match jsonMarshal value with
  | .error e => ⟨⟨.nil, some e⟩, r, t⟩
  | .ok b => r.SetNoExpire ex t key (.bytes b)

/-! ### Concrete fixtures used by witnesses -/

/-- A client as produced by connecting with
`{Connection: "localhost:6379", Timeout: 5, MaxIdle: 2, MaxActive: 10}`. -/
def sampleRedis : Redis :=
  ⟨"localhost:6379", 5 * second, ⟨2, 10, 5 * second, true⟩⟩

/-- A remote side on which every command times out. -/
def execTimeout : Exec := fun _ _ _ => (.nil, some .timeout)

/-- A remote side on which every command replies with the integer 1. -/
def execIntOne : Exec := fun _ _ _ => (.int64 1, none)

/-! ## Theorems -/

/-- The commands of a concatenated trace. -/
theorem cmds_append (a b : List Event) : cmds (a ++ b) = cmds a ++ cmds b :=
  List.filterMap_append a b _

/-- C1: `Set` issues a `SET` followed by an `EXPIRE` with 900 seconds; the
reply handed back is exactly the `SET` reply (an expression in the `SET`
call's outcome only, so a failing `EXPIRE` is never surfaced in it). -/
theorem Set_issues_set_then_expire_900 (r : Redis) (ex : Exec)
    (t : List Event) (key : String) (value : Arg) :
    (r.Set ex t key value).trace =
      t ++ [Event.acquire, Event.exec ⟨"SET", [.str key, value]⟩,
            Event.release, Event.acquire,
            Event.exec ⟨"EXPIRE", [.str key, .int 900]⟩, Event.release] ∧
    (r.Set ex t key value).reply =
      ⟨(ex r.timeout (cmds t) ⟨"SET", [.str key, value]⟩).1,
       (ex r.timeout (cmds t) ⟨"SET", [.str key, value]⟩).2⟩ := by
  constructor
  · show t ++ _ ++ _ = _
    simp [Redis.Set, Redis.Do, Redis.Expire]
  · rfl

/-- C4: only the plain `SAdd` follows its `SADD` with an automatic
`EXPIRE key 900`; the with-expire and no-expire variants issue the bare
`SADD`; all three pass the key and then the members, in order. -/
theorem SAdd_variants_traces (r : Redis) (ex : Exec) (t : List Event)
    (key : String) (expire : Int) (values : List String) :
    (r.SAdd ex t key values).trace =
      t ++ [Event.acquire,
            Event.exec ⟨"SADD", Arg.str key :: values.map Arg.str⟩,
            Event.release, Event.acquire,
            Event.exec ⟨"EXPIRE", [.str key, .int 900]⟩, Event.release] ∧
    (r.SAddWithExpire ex t key expire values).trace =
      t ++ [Event.acquire,
            Event.exec ⟨"SADD", Arg.str key :: values.map Arg.str⟩,
            Event.release] ∧
    (r.SAddNoExpire ex t key values).trace =
      t ++ [Event.acquire,
            Event.exec ⟨"SADD", Arg.str key :: values.map Arg.str⟩,
            Event.release] := by
  refine ⟨?_, rfl, rfl⟩
  show t ++ _ ++ _ = _
  simp [Redis.SAdd, Redis.Do, Redis.Expire, stringToInterface]

/-- C9: `SAddWithExpire` ignores its expire argument and is the same
function as `SAddNoExpire`. -/
theorem SAddWithExpire_eq_SAddNoExpire (r : Redis) (ex : Exec)
    (t : List Event) (key : String) (expire : Int) (values : List String) :
    r.SAddWithExpire ex t key expire values = r.SAddNoExpire ex t key values :=
  rfl

/-- C5: `Do` acquires one connection, executes the command under the
client's configured timeout against the history so far, releases the
connection unconditionally, and wraps the raw outcome in a `Reply`; in
particular a timeout outcome becomes a `Reply` carrying the timeout error
while the release still happens. -/
theorem Do_contract (r : Redis) (ex : Exec) (t : List Event)
    (command : String) (args : List Arg) :
    r.Do ex t command args =
      ⟨⟨(ex r.timeout (cmds t) ⟨command, args⟩).1,
        (ex r.timeout (cmds t) ⟨command, args⟩).2⟩, r,
       t ++ [Event.acquire, Event.exec ⟨command, args⟩, Event.release]⟩ ∧
    ((ex r.timeout (cmds t) ⟨command, args⟩).2 = some .timeout →
      (r.Do ex t command args).reply.error = some Err.timeout ∧
      Event.release ∈ (r.Do ex t command args).trace) := by
  refine ⟨rfl, fun h => ⟨?_, ?_⟩⟩
  · simpa [Redis.Do] using h
  · simp [Redis.Do]

/-- Witness for C5 at a concrete client and a timing-out remote side. -/
theorem Do_contract_witness :
    (sampleRedis.Do execTimeout [] "GET" [.str "k"]).reply.error
        = some Err.timeout ∧
    Event.release ∈ (sampleRedis.Do execTimeout [] "GET" [.str "k"]).trace :=
  (Do_contract sampleRedis execTimeout [] "GET" [.str "k"]).2 rfl

/-- C8: no operation of the client reassigns the client's fields — the
receiver after `Do`, `Ping`, `Exists` and every typed operation is the
client it was called on, so connection string, timeout and pool reference
stay as set at construction. -/
theorem client_state_immutable (r : Redis) (ex : Exec) (t : List Event)
    (command key name value : String) (n expire score : Int)
    (args zargs : List Arg) (values : List String) (gv : GoValue)
    (obj : List (String × Arg)) (zv : Arg) :
    (r.Do ex t command args).self = r ∧
    (r.Ping ex t).2.1 = r ∧
    (r.Exists ex t key).2.1 = r ∧
    (r.TTL ex t key).self = r ∧
    (r.Expire ex t key expire).self = r ∧
    (r.Incr ex t key).self = r ∧
    (r.IncrBy ex t key n).self = r ∧
    (r.Decr ex t key).self = r ∧
    (r.DecrBy ex t key n).self = r ∧
    (r.Get ex t key).self = r ∧
    (r.Set ex t key (.str value)).self = r ∧
    (r.SetWithExpire ex t key expire (.str value)).self = r ∧
    (r.SetNoExpire ex t key (.str value)).self = r ∧
    (r.Del ex t key).self = r ∧
    (r.SetStruct ex t key gv).self = r ∧
    (r.SetStructWithExpire ex t key expire gv).self = r ∧
    (r.SetStructNoExpire ex t key gv).self = r ∧
    (r.SAdd ex t key values).self = r ∧
    (r.SAddWithExpire ex t key expire values).self = r ∧
    (r.SAddNoExpire ex t key values).self = r ∧
    (r.SRem ex t key values).self = r ∧
    (r.SIsMember ex t key name).self = r ∧
    (r.SMembers ex t key).self = r ∧
    (r.SCard ex t key).self = r ∧
    (r.HSet ex t name obj).self = r ∧
    (r.HSetWithExpire ex t name expire obj).self = r ∧
    (r.HSetNoExpire ex t name obj).self = r ∧
    (r.HGet ex t name key).self = r ∧
    (r.HGetAll ex t name).self = r ∧
    (r.HDel ex t name key).self = r ∧
    (r.ZAdd ex t key zv score).self = r ∧
    (r.ZRem ex t key zv).self = r ∧
    (r.ZRange ex t zargs).self = r ∧
    (r.ZInterStore ex t zargs).self = r := by
  refine ⟨rfl, ?_, ?_, rfl, rfl, rfl, rfl, rfl, rfl, rfl, rfl, rfl, rfl,
          rfl, ?_, ?_, ?_, rfl, rfl, rfl, rfl, rfl, rfl, rfl,
          rfl, rfl, rfl, rfl, rfl, rfl, rfl, rfl, rfl, rfl⟩
  · unfold Redis.Ping
    dsimp only
    split
    · rfl
    · split <;> rfl
  · unfold Redis.Exists
    dsimp only
    split <;> rfl
  · unfold Redis.SetStruct
    split <;> rfl
  · unfold Redis.SetStructWithExpire
    split <;> rfl
  · unfold Redis.SetStructNoExpire
    split <;> rfl

/-- C6: when the `EXISTS` command succeeds with an integer reply, `Exists`
returns a boolean with a nil error — `false` for the not-found reply 0
(never an error) — and returns `true` exactly when the reply equals 1. -/
theorem Exists_bool_of_int_reply (r : Redis) (ex : Exec) (t : List Event)
    (key : String) (n : Int)
    (h : ex r.timeout (cmds t) ⟨"EXISTS", [.str key]⟩ = (.int64 n, none)) :
    (r.Exists ex t key).1 = ((n == 1 : Bool), none) ∧
    ((r.Exists ex t key).1.1 = true ↔ n = 1) ∧
    (n = 0 → (r.Exists ex t key).1 = (false, none)) := by
  have hval : (r.Exists ex t key).1 = ((n == 1 : Bool), none) := by
    unfold Redis.Exists Redis.Do
    dsimp only
    simp [h, Reply.Int, redisInt]
  refine ⟨hval, ?_, ?_⟩
  · rw [hval]
    simp
  · intro h0
    rw [hval, h0]
    rfl

/-- Witness for C6: on a remote side replying 1, `Exists` is
`(true, none)`. -/
theorem Exists_bool_of_int_reply_witness :
    (sampleRedis.Exists execIntOne [] "k").1 = (true, none) := by
  have h := Exists_bool_of_int_reply sampleRedis execIntOne [] "k" 1 rfl
  simpa using h.1

/-- C3: every decode accessor of a `Reply` leaves the reply unchanged (it
is a pure projection of the stored result, consulting neither the pool nor
the oracle), and on a reply whose stored error is non-nil every accessor
returns that stored error without interpreting the stored result. -/
theorem Reply_accessors_error_first (rp : Reply) :
    ((rp.String).2 = rp ∧ (rp.Float64).2 = rp ∧ (rp.Int64).2 = rp ∧
     (rp.Int).2 = rp ∧ (rp.Bool).2 = rp ∧ (rp.Strings).2 = rp ∧
     (rp.Bytes).2 = rp ∧ (rp.Unmarshal).2 = rp ∧ (rp.Struct).2 = rp) ∧
    (∀ e, rp.error = some e →
      (rp.String).1 = .error e ∧ (rp.Float64).1 = .error e ∧
      (rp.Int64).1 = .error e ∧ (rp.Int).1 = .error e ∧
      (rp.Bool).1 = .error e ∧ (rp.Strings).1 = .error e ∧
      (rp.Bytes).1 = .error e ∧ (rp.Unmarshal).1 = .error e ∧
      (rp.Struct).1 = .error e) := by
  refine ⟨⟨rfl, rfl, rfl, rfl, rfl, rfl, rfl, rfl, rfl⟩, fun e he => ?_⟩
  refine ⟨?_, ?_, ?_, ?_, ?_, ?_, ?_, ?_, ?_⟩ <;>
    simp [Reply.String, Reply.Float64, Reply.Int64, Reply.Int, Reply.Bool,
          Reply.Strings, Reply.Bytes, Reply.Unmarshal, Reply.Struct,
          redisString, redisFloat64, redisInt64, redisInt, redisBool,
          redisStrings, redisBytes, redisValues, he]

/-- Witness for C3 at a reply carrying a timeout error. -/
theorem Reply_accessors_error_first_witness :
    (Reply.String ⟨.nil, some .timeout⟩).1 = .error Err.timeout ∧
    (Reply.Unmarshal ⟨.nil, some .timeout⟩).1 = .error Err.timeout := by
  have h := (Reply_accessors_error_first ⟨.nil, some .timeout⟩).2
      Err.timeout rfl
  exact ⟨h.1, h.2.2.2.2.2.2.2.1⟩

/-- C10: when `json.Marshal` fails, all three structured set operations
return a reply holding nil and the marshalling error, leave the client
unchanged, and extend the event trace by nothing — the pool is never
touched and no command is issued. -/
theorem SetStruct_marshal_failure_no_command (r : Redis) (ex : Exec)
    (t : List Event) (key : String) (expire : Int) (v : GoValue) (e : Err)
    (h : jsonMarshal v = .error e) :
    r.SetStruct ex t key v = ⟨⟨.nil, some e⟩, r, t⟩ ∧
    r.SetStructWithExpire ex t key expire v = ⟨⟨.nil, some e⟩, r, t⟩ ∧
    r.SetStructNoExpire ex t key v = ⟨⟨.nil, some e⟩, r, t⟩ := by
  refine ⟨?_, ?_, ?_⟩ <;>
    simp [Redis.SetStruct, Redis.SetStructWithExpire,
          Redis.SetStructNoExpire, h]

/-- Witness for C10 at an unserializable value (a channel). -/
theorem SetStruct_marshal_failure_no_command_witness :
    sampleRedis.SetStruct execIntOne [] "k" GoValue.chan =
      ⟨⟨.nil, some (.jsonUnsupported "chan")⟩, sampleRedis, []⟩ :=
  (SetStruct_marshal_failure_no_command sampleRedis execIntOne [] "k" 0
    GoValue.chan (.jsonUnsupported "chan") rfl).1

/-- Counterexample to C2 as stated: the health check's reply value is
never inspected, so on a remote side whose `PING` returns the unexpected
value `"NOTPONG"` with a nil error, `ConnectRedis` still returns a client
handle. -/
theorem ConnectRedis_ignores_ping_value_cex :
    ConnectRedis ⟨"localhost:6379", "", 5, 2, 10⟩
        (RVal.status "NOTPONG", none) =
      .ok ⟨"localhost:6379", 5 * second, ⟨2, 10, 5 * second, true⟩⟩ :=
  rfl

/-- C2 (amended): `ConnectRedis` returns no client and an error wrapping
the endpoint and the underlying cause exactly when the dial or the
blocking `PING` call returns an error; when that call returns no error a
client handle is returned regardless of the reply value. -/
theorem ConnectRedis_error_iff_ping_error (config : RedisConfig)
    (ping : RVal × Option Err) :
    (∀ e, ping.2 = some e →
      ConnectRedis config ping =
        .error (.wrapped ErrorFailedConnect config.Connection e)) ∧
    (ping.2 = none →
      ConnectRedis config ping =
        .ok ⟨config.Connection, config.Timeout * second,
             ⟨config.MaxIdle, config.MaxActive,
              config.Timeout * second, true⟩⟩) := by
  constructor
  · intro e he
    simp [ConnectRedis, he]
  · intro he
    simp [ConnectRedis, he]

/-- Witness for C2 (amended) at a concrete config and a failing dial. -/
theorem ConnectRedis_error_iff_ping_error_witness :
    ConnectRedis ⟨"localhost:6379", "", 5, 2, 10⟩
        (RVal.nil, some (.ioError "connection refused")) =
      .error (.wrapped ErrorFailedConnect "localhost:6379"
        (.ioError "connection refused")) :=
  (ConnectRedis_error_iff_ping_error ⟨"localhost:6379", "", 5, 2, 10⟩
    (RVal.nil, some (.ioError "connection refused"))).1
    (.ioError "connection refused") rfl

/-! ### JSON codec round trip: helper lemmas -/

/-- A digit character is none of the JSON structural characters. -/
theorem isDigit_ne_special (c : Char) (h : c.isDigit = true) :
    c ≠ 'n' ∧ c ≠ 't' ∧ c ≠ 'f' ∧ c ≠ '"' ∧ c ≠ '[' ∧ c ≠ '\x7b' ∧
    c ≠ ']' ∧ c ≠ '\x7d' ∧ c ≠ ',' ∧ c ≠ ':' ∧ c ≠ '-' ∧ c ≠ '\\' := by
  refine ⟨?_, ?_, ?_, ?_, ?_, ?_, ?_, ?_, ?_, ?_, ?_, ?_⟩ <;>
    (intro heq; subst heq; exact absurd h (by decide))

/-- `digitChar` produces a digit character. -/
theorem isDigit_digitChar (d : Nat) : (digitChar d).isDigit = true := by
  have h : d % 10 < 10 := Nat.mod_lt _ (by norm_num)
  unfold digitChar
  generalize d % 10 = m at h
  interval_cases m <;> decide

/-- `digitVal` inverts `digitChar`. -/
theorem digitVal_digitChar (d : Nat) : digitVal (digitChar d) = d % 10 := by
  have h : d % 10 < 10 := Nat.mod_lt _ (by norm_num)
  unfold digitChar
  generalize d % 10 = m at h ⊢
  interval_cases m <;> decide

/-- Every character of `natDigitsRev n` is a digit. -/
theorem natDigitsRev_digits :
    ∀ n, ∀ c ∈ natDigitsRev n, c.isDigit = true := by
  intro n
  induction n using Nat.strong_induction_on with
  | _ n ih =>
    intro c hc
    rw [natDigitsRev] at hc
    by_cases h : n = 0
    · simp [h] at hc
    · simp only [h, dite_false] at hc
      rcases List.mem_cons.mp hc with h1 | h2
      · rw [h1]; exact isDigit_digitChar _
      · exact ih (n / 10) (Nat.div_lt_self (Nat.pos_of_ne_zero h) (by norm_num)) c h2

/-- The little-endian digits of `n` evaluate back to `n`. -/
theorem natDigitsRev_foldr :
    ∀ n, (natDigitsRev n).foldr (fun c a => a * 10 + digitVal c) 0 = n := by
  intro n
  induction n using Nat.strong_induction_on with
  | _ n ih =>
    rw [natDigitsRev]
    by_cases h : n = 0
    · simp [h]
    · simp only [h, dite_false, List.foldr_cons]
      rw [ih (n / 10) (Nat.div_lt_self (Nat.pos_of_ne_zero h) (by norm_num)),
          digitVal_digitChar]
      omega

/-- `natDigitsRev n` is nonempty for positive `n`. -/
theorem natDigitsRev_ne_nil (n : Nat) (h : n ≠ 0) : natDigitsRev n ≠ [] := by
  rw [natDigitsRev]
  simp [h]

/-- `encNat n` is nonempty. -/
theorem encNat_ne_nil (n : Nat) : encNat n ≠ [] := by
  unfold encNat
  by_cases h : n = 0
  · simp [h]
  · simpa [h] using natDigitsRev_ne_nil n h

/-- Every character of `encNat n` is a digit. -/
theorem encNat_digits (n : Nat) : ∀ c ∈ encNat n, c.isDigit = true := by
  intro c hc
  unfold encNat at hc
  by_cases h : n = 0
  · simp [h] at hc
    rw [hc]; decide
  · simp only [h, if_false, List.mem_reverse] at hc
    exact natDigitsRev_digits n c hc

/-- The canonical numeral of `n` evaluates back to `n` under the
digit-accumulating fold. -/
theorem encNat_foldl :
    ∀ n, (encNat n).foldl (fun a c => a * 10 + digitVal c) 0 = n := by
  intro n
  unfold encNat
  by_cases h : n = 0
  · simp [h]; decide
  · simp only [h, if_false, List.foldl_reverse]
    simpa using natDigitsRev_foldr n

/-- Consuming an all-digit prefix before a non-digit remainder folds
exactly the prefix. -/
theorem parseDigits_spec :
    ∀ ds acc rest, (∀ c ∈ ds, c.isDigit = true) → noDigitHead rest →
      parseDigits (ds ++ rest) acc =
        (ds.foldl (fun a c => a * 10 + digitVal c) acc, rest) := by
  intro ds
  induction ds with
  | nil =>
    intro acc rest _ hrest
    cases rest with
    | nil => rfl
    | cons c cs =>
      unfold noDigitHead at hrest
      simp [parseDigits, hrest]
  | cons d ds ih =>
    intro acc rest hds hrest
    have hd : d.isDigit = true := hds d (List.mem_cons_self d ds)
    simp only [List.cons_append, parseDigits, hd, if_true, List.foldl_cons]
    exact ih _ rest (fun c hc => hds c (List.mem_cons_of_mem d hc)) hrest

/-- Parsing the canonical numeral of `n` before a non-digit remainder
yields `n`. -/
theorem parseNatC_encNat (n : Nat) (rest : List Char)
    (hrest : noDigitHead rest) :
    parseNatC (encNat n ++ rest) = some (n, rest) := by
  rcases h : encNat n with _ | ⟨c, cs⟩
  · exact absurd h (encNat_ne_nil n)
  · have hc : c.isDigit = true := by
      refine encNat_digits n c ?_
      rw [h]; exact List.mem_cons_self c cs
    have hcs : ∀ x ∈ cs, x.isDigit = true := by
      intro x hx
      refine encNat_digits n x ?_
      rw [h]; exact List.mem_cons_of_mem c hx
    simp only [List.cons_append, parseNatC, hc, if_true]
    rw [parseDigits_spec cs (digitVal c) rest hcs hrest]
    have hfold := encNat_foldl n
    rw [h] at hfold
    simp only [List.foldl_cons] at hfold
    simpa using hfold

/-- Parsing the canonical signed numeral of `i` before a non-digit
remainder yields `i`. -/
theorem parseIntC_encInt (i : Int) (rest : List Char)
    (hrest : noDigitHead rest) :
    parseIntC (encInt i ++ rest) = some (i, rest) := by
  unfold encInt
  by_cases hneg : i < 0
  · simp only [hneg, if_true, List.cons_append, parseIntC, if_pos rfl]
    rw [parseNatC_encNat i.natAbs rest hrest]
    have h2 : -((i.natAbs : Nat) : Int) = i := by omega
    show some (-((i.natAbs : Nat) : Int), rest) = some (i, rest)
    rw [h2]
  · simp only [hneg, if_false]
    rcases h : encNat i.toNat with _ | ⟨c, cs⟩
    · exact absurd h (encNat_ne_nil _)
    · have hc : c.isDigit = true := by
        refine encNat_digits i.toNat c ?_
        rw [h]; exact List.mem_cons_self c cs
      have hdash : ¬(c = '-') := (isDigit_ne_special c hc).2.2.2.2.2.2.2.2.2.2.1
      rw [← h]
      have hne : encNat i.toNat ++ rest = c :: (cs ++ rest) := by
        rw [h]; rfl
      rw [hne]
      simp only [parseIntC, hdash, if_false]
      rw [← List.cons_append, ← h, parseNatC_encNat i.toNat rest hrest]
      have h2 : ((i.toNat : Nat) : Int) = i := by omega
      show some (((i.toNat : Nat) : Int), rest) = some (i, rest)
      rw [h2]

/-- Unfolding lemma: an escaped character. -/
theorem parseStrBody_esc (c : Char) (cs : List Char) :
    parseStrBody ('\\' :: c :: cs) =
      match parseStrBody cs with
      | some (s, r) => some (c :: s, r)
      | none => none := by
  conv_lhs => rw [parseStrBody]
  rw [if_pos rfl]

/-- Unfolding lemma: the closing quote. -/
theorem parseStrBody_quote (cs : List Char) :
    parseStrBody ('"' :: cs) = some ([], cs) := by
  conv_lhs => rw [parseStrBody.eq_def]
  dsimp only
  rw [if_neg (by decide), if_pos rfl]

/-- Unfolding lemma: an ordinary character. -/
theorem parseStrBody_other (c : Char) (h1 : c ≠ '\\') (h2 : c ≠ '"')
    (cs : List Char) :
    parseStrBody (c :: cs) =
      match parseStrBody cs with
      | some (s, r) => some (c :: s, r)
      | none => none := by
  conv_lhs => rw [parseStrBody.eq_def]
  dsimp only
  rw [if_neg h1, if_neg h2]

/-- Parsing an escaped string body followed by the closing quote recovers
the original characters and the remainder. -/
theorem parseStrBody_escBody :
    ∀ l rest, parseStrBody (escBody l ++ '"' :: rest) = some (l, rest) := by
  intro l
  induction l with
  | nil =>
    intro rest
    show parseStrBody ('"' :: rest) = some ([], rest)
    exact parseStrBody_quote rest
  | cons c cs ih =>
    intro rest
    by_cases hc : c = '"' ∨ c = '\\'
    · have hesc : escBody (c :: cs) = '\\' :: c :: escBody cs := by
        simp [escBody, escChar, hc]
      rw [hesc, List.cons_append, List.cons_append, parseStrBody_esc,
          ih rest]
    · have hesc : escBody (c :: cs) = c :: escBody cs := by
        simp [escBody, escChar, hc]
      have h1 : c ≠ '\\' := fun h => hc (Or.inr h)
      have h2 : c ≠ '"' := fun h => hc (Or.inl h)
      rw [hesc, List.cons_append, parseStrBody_other c h1 h2, ih rest]

/-- The serialization of a JSON value is nonempty and starts with one of
the JSON start characters. -/
theorem encJson_head (j : Json) :
    ∃ c cs, encJson j = c :: cs ∧ jsonStartChar c := by
  cases j with
  | null => exact ⟨'n', _, rfl, Or.inl rfl⟩
  | bool b =>
    cases b with
    | true => exact ⟨'t', _, rfl, Or.inr (Or.inl rfl)⟩
    | false => exact ⟨'f', _, rfl, Or.inr (Or.inr (Or.inl rfl))⟩
  | num i =>
    show ∃ c cs, encInt i = c :: cs ∧ jsonStartChar c
    unfold encInt
    by_cases hneg : i < 0
    · refine ⟨'-', encNat i.natAbs, by simp [hneg], ?_⟩
      unfold jsonStartChar
      tauto
    · rcases h : encNat i.toNat with _ | ⟨c, cs⟩
      · exact absurd h (encNat_ne_nil _)
      · refine ⟨c, cs, by simp [hneg, h], ?_⟩
        have hc : c.isDigit = true := by
          refine encNat_digits i.toNat c ?_
          rw [h]; exact List.mem_cons_self c cs
        unfold jsonStartChar
        tauto
  | str s => exact ⟨'"', _, rfl, Or.inr (Or.inr (Or.inr (Or.inl rfl)))⟩
  | arr xs =>
    exact ⟨'[', _, rfl, Or.inr (Or.inr (Or.inr (Or.inr (Or.inl rfl))))⟩
  | obj kvs =>
    exact ⟨'\x7b', _, rfl,
      Or.inr (Or.inr (Or.inr (Or.inr (Or.inr (Or.inl rfl)))))⟩

/-- A JSON start character is not a closing bracket, closing brace or
comma. -/
theorem jsonStartChar_ne (c : Char) (h : jsonStartChar c) :
    c ≠ ']' ∧ c ≠ '\x7d' ∧ c ≠ ',' := by
  rcases h with h | h | h | h | h | h | h | h <;>
    first
    | (subst h; exact ⟨by decide, by decide, by decide⟩)
    | (obtain ⟨_, _, _, _, _, _, h7, h8, h9, _⟩ := isDigit_ne_special c h
       exact ⟨h7, h8, h9⟩)

/-- The serialization of an integer is nonempty and starts with a minus
sign or a digit. -/
theorem encInt_head (i : Int) :
    ∃ c cs, encInt i = c :: cs ∧ (c = '-' ∨ c.isDigit = true) := by
  unfold encInt
  by_cases hneg : i < 0
  · exact ⟨'-', encNat i.natAbs, by simp [hneg], Or.inl rfl⟩
  · rcases h : encNat i.toNat with _ | ⟨c, cs⟩
    · exact absurd h (encNat_ne_nil _)
    · refine ⟨c, cs, by simp [hneg, h], Or.inr ?_⟩
      refine encNat_digits i.toNat c ?_
      rw [h]; exact List.mem_cons_self c cs

/-- The serialization of a nonempty array body is nonempty and starts
with a JSON start character. -/
theorem encArrBody_head (x : Json) (xs : List Json) :
    ∃ c cs, encArrBody (x :: xs) = c :: cs ∧ jsonStartChar c := by
  obtain ⟨c, cs0, hx, hs⟩ := encJson_head x
  cases xs with
  | nil => exact ⟨c, cs0, by simp [encArrBody, hx], hs⟩
  | cons y ys =>
    exact ⟨c, cs0 ++ ',' :: encArrBody (y :: ys),
      by simp [encArrBody, hx], hs⟩

/-- The serialization of a nonempty object body starts with a quote. -/
theorem encObjBody_head (k : String) (v : Json)
    (kvs : List (String × Json)) :
    ∃ cs, encObjBody ((k, v) :: kvs) = '"' :: cs := by
  cases kvs with
  | nil => exact ⟨escBody k.data ++ ['"'] ++ ':' :: encJson v,
      by simp [encObjBody, encStr]⟩
  | cons kv kvs' =>
    exact ⟨escBody k.data ++ ['"'] ++ ':' :: encJson v ++
        ',' :: encObjBody (kv :: kvs'),
      by simp [encObjBody, encStr]⟩

/-- Every JSON value has positive size. -/
theorem Json.size_pos (j : Json) : 1 ≤ j.size := by
  cases j <;> simp [Json.size]

/-- Unfolding lemma: `null`. -/
theorem parseJson_null (f : Nat) (r : List Char) :
    parseJson (f + 1) ('n' :: 'u' :: 'l' :: 'l' :: r) = some (.null, r) := by
  simp [parseJson]

/-- Unfolding lemma: `true`. -/
theorem parseJson_true (f : Nat) (r : List Char) :
    parseJson (f + 1) ('t' :: 'r' :: 'u' :: 'e' :: r) =
      some (.bool true, r) := by
  simp [parseJson]

/-- Unfolding lemma: `false`. -/
theorem parseJson_false (f : Nat) (r : List Char) :
    parseJson (f + 1) ('f' :: 'a' :: 'l' :: 's' :: 'e' :: r) =
      some (.bool false, r) := by
  simp [parseJson]

/-- Unfolding lemma: a string. -/
theorem parseJson_str (f : Nat) (cs : List Char) :
    parseJson (f + 1) ('"' :: cs) =
      match parseStrBody cs with
      | some (s, r) => some (.str (String.mk s), r)
      | none => none := by
  simp [parseJson]

/-- Unfolding lemma: an array. -/
theorem parseJson_arr (f : Nat) (cs : List Char) :
    parseJson (f + 1) ('[' :: cs) =
      if headIs ']' cs then some (.arr [], cs.tail)
      else
        match parseElems f cs with
        | some (xs, r) => some (.arr xs, r)
        | none => none := by
  simp [parseJson]

/-- Unfolding lemma: an object. -/
theorem parseJson_obj (f : Nat) (cs : List Char) :
    parseJson (f + 1) ('\x7b' :: cs) =
      if headIs '\x7d' cs then some (.obj [], cs.tail)
      else
        match parseMembers f cs with
        | some (kvs, r) => some (.obj kvs, r)
        | none => none := by
  simp [parseJson]

/-- Unfolding lemma: the number fallback. -/
theorem parseJson_number (f : Nat) (c : Char) (cs : List Char)
    (h1 : c ≠ 'n') (h2 : c ≠ 't') (h3 : c ≠ 'f') (h4 : c ≠ '"')
    (h5 : c ≠ '[') (h6 : c ≠ '\x7b') :
    parseJson (f + 1) (c :: cs) =
      match parseIntC (c :: cs) with
      | some (i, r) => some (.num i, r)
      | none => none := by
  simp [parseJson, h1, h2, h3, h4, h5, h6]

/-- Unfolding lemma: one step of the element parser. -/
theorem parseElems_succ (f : Nat) (l : List Char) :
    parseElems (f + 1) l =
      match parseJson f l with
      | none => none
      | some (x, r) =>
        if headIs ',' r then
          match parseElems f r.tail with
          | some (xs, r2) => some (x :: xs, r2)
          | none => none
        else if headIs ']' r then some ([x], r.tail)
        else none := by
  simp [parseElems]

/-- Unfolding lemma: one step of the member parser. -/
theorem parseMembers_succ (f : Nat) (l : List Char) :
    parseMembers (f + 1) l =
      if headIs '"' l then
        match parseStrBody l.tail with
        | none => none
        | some (k, r) =>
          if headIs ':' r then
            match parseJson f r.tail with
            | none => none
            | some (v, r2) =>
              if headIs ',' r2 then
                match parseMembers f r2.tail with
                | some (kvs, r3) => some ((String.mk k, v) :: kvs, r3)
                | none => none
              else if headIs '\x7d' r2 then
                some ([(String.mk k, v)], r2.tail)
              else none
          else none
      else none := by
  simp [parseMembers]

/-- A non-digit head satisfies `noDigitHead`. -/
theorem noDigitHead_cons (c : Char) (l : List Char)
    (h : c.isDigit = false) : noDigitHead (c :: l) := by
  simp [noDigitHead, h]

/-- Round trip of the JSON codec, by induction on the parser fuel: with
enough fuel, parsing the serialization of a value (or of a nonempty array
or object body) before any non-digit remainder recovers the value and the
remainder. -/
theorem parseJson_encJson_aux :
    ∀ fuel : Nat,
      (∀ j rest, Json.size j ≤ fuel → noDigitHead rest →
        parseJson fuel (encJson j ++ rest) = some (j, rest)) ∧
      (∀ x xs rest, sizeJL (x :: xs) ≤ fuel →
        parseElems fuel (encArrBody (x :: xs) ++ ']' :: rest) =
          some (x :: xs, rest)) ∧
      (∀ k v kvs rest, sizeJM ((k, v) :: kvs) ≤ fuel →
        parseMembers fuel (encObjBody ((k, v) :: kvs) ++ '\x7d' :: rest) =
          some ((k, v) :: kvs, rest)) := by
  intro fuel
  induction fuel with
  | zero =>
    refine ⟨fun j rest hsz _ => ?_, fun x xs rest hsz => ?_,
            fun k v kvs rest hsz => ?_⟩
    · have := Json.size_pos j
      omega
    · simp [sizeJL] at hsz
    · simp [sizeJM] at hsz
  | succ f ih =>
    obtain ⟨ihJ, ihA, ihO⟩ := ih
    refine ⟨fun j rest hsz hrest => ?_, fun x xs rest hsz => ?_,
            fun k v kvs rest hsz => ?_⟩
    · -- one JSON value
      cases j with
      | null =>
        simp only [encJson, List.cons_append, List.nil_append]
        exact parseJson_null f rest
      | bool b =>
        cases b with
        | true =>
          simp only [encJson, List.cons_append, List.nil_append]
          exact parseJson_true f rest
        | false =>
          simp only [encJson, List.cons_append, List.nil_append]
          exact parseJson_false f rest
      | num i =>
        obtain ⟨c, cs, henc, hc⟩ := encInt_head i
        have hne : c ≠ 'n' ∧ c ≠ 't' ∧ c ≠ 'f' ∧ c ≠ '"' ∧ c ≠ '[' ∧
            c ≠ '\x7b' := by
          rcases hc with hc | hc
          · subst hc
            exact ⟨by decide, by decide, by decide, by decide, by decide,
                   by decide⟩
          · obtain ⟨g1, g2, g3, g4, g5, g6, -⟩ := isDigit_ne_special c hc
            exact ⟨g1, g2, g3, g4, g5, g6⟩
        obtain ⟨g1, g2, g3, g4, g5, g6⟩ := hne
        simp only [encJson]
        rw [henc, List.cons_append,
            parseJson_number f c (cs ++ rest) g1 g2 g3 g4 g5 g6,
            ← List.cons_append, ← henc, parseIntC_encInt i rest hrest]
      | str s =>
        simp only [encJson, encStr, List.cons_append, List.append_assoc,
                   List.nil_append]
        rw [parseJson_str, parseStrBody_escBody s.data rest]
      | arr xs =>
        cases xs with
        | nil =>
          simp only [encJson, encArrBody, List.nil_append,
                     List.cons_append]
          rw [parseJson_arr]
          simp [headIs]
        | cons x xs' =>
          simp only [encJson, List.cons_append, List.append_assoc,
                     List.nil_append]
          rw [parseJson_arr]
          obtain ⟨c0, cs0, hb, hs0⟩ := encArrBody_head x xs'
          have hne := (jsonStartChar_ne c0 hs0).1
          rw [hb, List.cons_append]
          have hhead : headIs ']' (c0 :: (cs0 ++ ']' :: rest)) = false := by
            simp [headIs, hne]
          rw [hhead, if_neg (by simp), ← List.cons_append, ← hb]
          have hsz' : sizeJL (x :: xs') ≤ f := by
            simp only [Json.size] at hsz
            omega
          rw [ihA x xs' rest hsz']
      | obj kvs =>
        cases kvs with
        | nil =>
          simp only [encJson, encObjBody, List.nil_append,
                     List.cons_append]
          rw [parseJson_obj]
          simp [headIs]
        | cons kv kvs' =>
          obtain ⟨k, v⟩ := kv
          simp only [encJson, List.cons_append, List.append_assoc,
                     List.nil_append]
          rw [parseJson_obj]
          obtain ⟨cs0, hb⟩ := encObjBody_head k v kvs'
          rw [hb, List.cons_append]
          have hhead : headIs '\x7d' ('"' :: (cs0 ++ '\x7d' :: rest))
              = false := by
            simp [headIs]
          rw [hhead, if_neg (by simp), ← List.cons_append, ← hb]
          have hsz' : sizeJM ((k, v) :: kvs') ≤ f := by
            simp only [Json.size] at hsz
            omega
          rw [ihO k v kvs' rest hsz']
    · -- array elements
      have hszx : Json.size x ≤ f := by
        simp only [sizeJL] at hsz
        omega
      cases xs with
      | nil =>
        simp only [encArrBody]
        rw [parseElems_succ,
            ihJ x (']' :: rest) hszx (noDigitHead_cons _ _ (by decide))]
        simp [headIs]
      | cons y ys =>
        simp only [encArrBody, List.cons_append, List.append_assoc]
        rw [parseElems_succ,
            ihJ x (',' :: (encArrBody (y :: ys) ++ ']' :: rest)) hszx
              (noDigitHead_cons _ _ (by decide))]
        have hsz' : sizeJL (y :: ys) ≤ f := by
          simp only [sizeJL] at hsz ⊢
          have := Json.size_pos x
          omega
        dsimp only
        rw [if_pos (by simp [headIs]), List.tail_cons,
            ihA y ys rest hsz']
    · -- object members
      have hszv : Json.size v ≤ f := by
        simp only [sizeJM] at hsz
        omega
      cases kvs with
      | nil =>
        simp only [encObjBody, encStr, List.cons_append,
                   List.append_assoc, List.nil_append]
        rw [parseMembers_succ, if_pos (by simp [headIs]), List.tail_cons,
            parseStrBody_escBody k.data
              (':' :: (encJson v ++ '\x7d' :: rest))]
        dsimp only
        rw [if_pos (by simp [headIs]), List.tail_cons,
            ihJ v ('\x7d' :: rest) hszv (noDigitHead_cons _ _ (by decide))]
        dsimp only
        rw [if_neg (by simp [headIs]), if_pos (by simp [headIs]),
            List.tail_cons]
      | cons kv2 kvs2 =>
        obtain ⟨k2, v2⟩ := kv2
        simp only [encObjBody, encStr, List.cons_append,
                   List.append_assoc, List.nil_append]
        rw [parseMembers_succ, if_pos (by simp [headIs]), List.tail_cons,
            parseStrBody_escBody k.data
              (':' :: (encJson v ++ ',' ::
                (encObjBody ((k2, v2) :: kvs2) ++ '\x7d' :: rest)))]
        dsimp only
        rw [if_pos (by simp [headIs]), List.tail_cons,
            ihJ v (',' :: (encObjBody ((k2, v2) :: kvs2) ++ '\x7d' :: rest))
              hszv (noDigitHead_cons _ _ (by decide))]
        have hsz' : sizeJM ((k2, v2) :: kvs2) ≤ f := by
          simp only [sizeJM] at hsz ⊢
          have := Json.size_pos v
          omega
        dsimp only
        rw [if_pos (by simp [headIs]), List.tail_cons,
            ihO k2 v2 kvs2 rest hsz']

mutual

/-- The fuel weight of a value is bounded by the length of its
serialization. -/
theorem size_le_encLength (j : Json) : j.size ≤ (encJson j).length := by
  cases j with
  | null => simp [encJson, Json.size]
  | bool b => cases b <;> simp [encJson, Json.size]
  | num i =>
    obtain ⟨c, cs, h, -⟩ := encInt_head i
    simp [encJson, Json.size, h]
  | str s => simp [encJson, Json.size, encStr]
  | arr xs =>
    cases xs with
    | nil => simp [encJson, Json.size, encArrBody, sizeJL]
    | cons x xs' =>
      have h := sizeJL_le_encLength x xs'
      simp only [encJson, Json.size, List.length_cons, List.length_append,
                 List.length_singleton]
      omega
  | obj kvs =>
    cases kvs with
    | nil => simp [encJson, Json.size, encObjBody, sizeJM]
    | cons kv kvs' =>
      obtain ⟨k, v⟩ := kv
      have h := sizeJM_le_encLength k v kvs'
      simp only [encJson, Json.size, List.length_cons, List.length_append,
                 List.length_singleton]
      omega
termination_by sizeOf j

/-- The fuel weight of a nonempty array body is bounded by the length of
its serialization plus one. -/
theorem sizeJL_le_encLength (x : Json) (xs : List Json) :
    sizeJL (x :: xs) ≤ (encArrBody (x :: xs)).length + 1 := by
  cases xs with
  | nil =>
    have h := size_le_encLength x
    simp only [sizeJL, encArrBody]
    omega
  | cons y ys =>
    have h1 := size_le_encLength x
    have h2 := sizeJL_le_encLength y ys
    simp only [sizeJL, encArrBody, List.length_append,
               List.length_cons] at h2 ⊢
    omega
termination_by sizeOf x + sizeOf xs

/-- The fuel weight of a nonempty object body is bounded by the length of
its serialization plus one. -/
theorem sizeJM_le_encLength (k : String) (v : Json)
    (kvs : List (String × Json)) :
    sizeJM ((k, v) :: kvs) ≤ (encObjBody ((k, v) :: kvs)).length + 1 := by
  cases kvs with
  | nil =>
    have h := size_le_encLength v
    simp only [sizeJM, encObjBody, List.length_append, List.length_cons]
    omega
  | cons kv2 kvs2 =>
    obtain ⟨k2, v2⟩ := kv2
    have h1 := size_le_encLength v
    have h2 := sizeJM_le_encLength k2 v2 kvs2
    simp only [sizeJM, encObjBody, List.length_append,
               List.length_cons] at h2 ⊢
    omega
termination_by sizeOf v + sizeOf kvs

end

/-- Parsing the canonical serialization of a JSON value recovers it. -/
theorem jsonUnmarshal_jsonEncode (j : Json) :
    jsonUnmarshal (jsonEncode j) = some j := by
  unfold jsonUnmarshal jsonEncode
  have hfuel : Json.size j ≤ (encJson j).length + 1 := by
    have := size_le_encLength j
    omega
  have h := (parseJson_encJson_aux ((encJson j).length + 1)).1 j []
      hfuel trivial
  rw [List.append_nil] at h
  simp only [h]

/-- C7: round trip for structured values — `SetStruct` serializes the
value and stores exactly those bytes with `SET` (then the default
`EXPIRE`), and decoding a reply holding those stored bytes with
`Unmarshal` reconstructs the original value. -/
theorem SetStruct_Unmarshal_roundtrip (j : Json) (r : Redis) (ex : Exec)
    (t : List Event) (key : String) :
    jsonMarshal (GoValue.json j) = .ok (jsonEncode j) ∧
    (r.SetStruct ex t key (GoValue.json j)).trace =
      t ++ [Event.acquire,
            Event.exec ⟨"SET", [.str key, .bytes (jsonEncode j)]⟩,
            Event.release, Event.acquire,
            Event.exec ⟨"EXPIRE", [.str key, .int 900]⟩, Event.release] ∧
    (Reply.Unmarshal ⟨.bulk (jsonEncode j), none⟩).1 = .ok j := by
  refine ⟨rfl, ?_, ?_⟩
  · show t ++ _ ++ _ = _
    simp [Redis.SetStruct, jsonMarshal, Redis.Set, Redis.Do, Redis.Expire]
  · simp [Reply.Unmarshal, redisBytes, jsonUnmarshal_jsonEncode]

end GoPkgCache
